import Mathlib

/-!
Verification of the goexmpp stanza/document core: a shallow embedding of the
JID parser and formatter, the stream header codec, the Generic element
renderer, the hand-rolled stanza marshaler of the older revision, and the
stanza dispatch of ParseStanza, together with theorems settling the claims
about them.
-/

set_option maxRecDepth 8192

namespace Xmpp

/-! ## JID parsing and formatting

The source parses JIDs with a regular expression anchored at both ends,
consisting of an optional node group of one or more characters outside the
class containing the at sign and the slash, followed by the at sign, then a
mandatory domain group over the same class, then an optional slash and
resource group over the same class.  Since the delimiters are excluded from
every group, the match is deterministic and is reimplemented here by maximal
munch over the character list. -/

/-- The character class of the JID regular expression: any character other
than the at sign or the slash. -/
def jidOk (c : Char) : Bool := c != '@' && c != '/'

/-- The domain(/resource)? suffix of the JID regular expression of
structs.go line 192, matched against the part of the input after the
optional node group: a non-empty domain over the jidOk class, optionally
followed by a slash and a non-empty resource over the jidOk class. -/
def parseTail (r1 : List Char) : Option (List Char × List Char) :=
  let d := r1.takeWhile jidOk
  let rest := r1.dropWhile jidOk
  if rest.isEmpty then
    if d.isEmpty then none else some (d, [])
  else if rest.head? = some '/' then
    let r2 := rest.tail
    if d.isEmpty || r2.isEmpty || !r2.all jidOk then none else some (d, r2)
  else none

/-- The full JID regular expression of structs.go line 192 on the character
list of the input: returns the three submatch groups (node, domain,
resource), with empty lists standing for absent optional groups, or none
when the input does not match.  A leading non-empty run of jidOk characters
followed by the at sign is the node group; otherwise the whole input must
match the domain(/resource)? suffix. -/
def jidParseCore (l : List Char) : Option (List Char × List Char × List Char) :=
  let a := l.takeWhile jidOk
  let rest := l.dropWhile jidOk
  if rest.head? = some '@' then
    if a.isEmpty then none
    else (parseTail rest.tail).map fun (dr : List Char × List Char) => (a, dr.1, dr.2)
  else
    (parseTail l).map fun (dr : List Char × List Char) => ([], dr.1, dr.2)

/-- JID from structs.go lines 24 to 28. -/
structure JID where
  Node : String
  Domain : String
  Resource : String
deriving DecidableEq

/-- JID.Set from structs.go lines 191 to 204, as a pure parse: some JID on
a successful match of the regular expression, none on failure. -/
def jidSet (val : String) : Option JID :=
  (jidParseCore val.data).map fun (p : List Char × List Char × List Char) =>
    ⟨String.mk p.1, String.mk p.2.1, String.mk p.2.2⟩

/-- JID.Set from structs.go lines 191 to 204 with the receiver made
explicit: the Go method assigns the receiver fields only after the match
succeeds and otherwise returns an error first, so the embedding returns the
new receiver state paired with the optional error message. -/
def JID.SetGo (jid : JID) (val : String) : JID × Option String :=
  match jidParseCore val.data with
  | none => (jid, some (val ++ " doesn't match user@domain/resource"))
  | some (n, d, r) => (⟨String.mk n, String.mk d, String.mk r⟩, none)

/-- JID.String from structs.go lines 178 to 187. -/
def JID.toStr (j : JID) : String :=
  let result := j.Domain
  let result := if j.Node ≠ "" then j.Node ++ "@" ++ result else result
  let result := if j.Resource ≠ "" then result ++ "/" ++ j.Resource else result
  result

/-- Rendering of the three JID parts as a character list, in the canonical
form of the grammar: optional node and at sign, domain, optional slash and
resource. -/
def renderJid (n d r : List Char) : List Char :=
  (if n.isEmpty then [] else n ++ ['@']) ++ d ++ (if r.isEmpty then [] else '/' :: r)

/-- The JID grammar of the specification: the string consists of an
optional node part followed by the at sign, a non-empty domain, and an
optional slash followed by a resource part, where none of the three parts
contains the at sign or the slash; an empty node or resource stands for the
absent optional part. -/
def JidGrammar (s : String) : Prop :=
  ∃ n d r : List Char,
    (!d.isEmpty && n.all jidOk && d.all jidOk && r.all jidOk) = true ∧
    s.data = renderJid n d r

/-! Helper lemmas about takeWhile and dropWhile at a delimiter. -/

theorem span_all {p : Char → Bool} :
    ∀ l : List Char, l.all p = true → l.takeWhile p = l ∧ l.dropWhile p = [] := by
  intro l h
  induction l with
  | nil => simp
  | cons c t ih =>
      simp only [List.all_cons, Bool.and_eq_true] at h
      simp [List.takeWhile_cons, List.dropWhile_cons, h.1, ih h.2]

theorem span_break {p : Char → Bool} (a : List Char) (c : Char) (t : List Char)
    (ha : a.all p = true) (hc : p c = false) :
    (a ++ c :: t).takeWhile p = a ∧ (a ++ c :: t).dropWhile p = c :: t := by
  induction a with
  | nil => simp [List.takeWhile_cons, List.dropWhile_cons, hc]
  | cons x xs ih =>
      simp only [List.all_cons, Bool.and_eq_true] at ha
      simp [List.takeWhile_cons, List.dropWhile_cons, ha.1, ih ha.2]

theorem head?_some_cons {α : Type} {l : List α} {a : α} (h : l.head? = some a) :
    l = a :: l.tail := by
  cases l with
  | nil => simp at h
  | cons x xs => simp_all

/-- Soundness of the suffix match: a successful parseTail yields a
non-empty domain and a resource over the jidOk class whose rendering is the
input. -/
theorem parseTail_sound (r1 d r : List Char) (h : parseTail r1 = some (d, r)) :
    d.isEmpty = false ∧ d.all jidOk = true ∧ r.all jidOk = true ∧
    r1 = d ++ (if r.isEmpty then [] else '/' :: r) := by
  have hsplit := List.takeWhile_append_dropWhile (p := jidOk) (l := r1)
  have hall : (r1.takeWhile jidOk).all jidOk = true := List.all_takeWhile
  simp only [parseTail] at h
  by_cases h1 : (r1.dropWhile jidOk).isEmpty = true
  · have h1' : r1.dropWhile jidOk = [] := by simpa using h1
    rw [if_pos h1] at h
    by_cases h2 : (r1.takeWhile jidOk).isEmpty = true
    · rw [if_pos h2] at h; exact absurd h (by simp)
    · rw [if_neg h2] at h
      have h3 : r1.takeWhile jidOk = d ∧ ([] : List Char) = r := by simpa using h
      obtain ⟨h3, h4⟩ := h3
      subst h3; subst h4
      refine ⟨by simpa using h2, hall, by simp, ?_⟩
      rw [h1'] at hsplit
      simp only [List.append_nil] at hsplit
      simp [hsplit]
  · rw [if_neg h1] at h
    by_cases h2 : (r1.dropWhile jidOk).head? = some '/'
    · rw [if_pos h2] at h
      have hcons := head?_some_cons h2
      by_cases h3 : ((r1.takeWhile jidOk).isEmpty || (r1.dropWhile jidOk).tail.isEmpty
          || !(r1.dropWhile jidOk).tail.all jidOk) = true
      · rw [if_pos h3] at h; exact absurd h (by simp)
      · rw [if_neg h3] at h
        have h4 : r1.takeWhile jidOk = d ∧ (r1.dropWhile jidOk).tail = r := by
          simpa using h
        obtain ⟨h4, h5⟩ := h4
        have h3A : (r1.takeWhile jidOk).isEmpty = false := by
          cases hA : (r1.takeWhile jidOk).isEmpty
          · rfl
          · exact absurd (by simp [hA]) h3
        have h3B : (r1.dropWhile jidOk).tail.isEmpty = false := by
          cases hB : (r1.dropWhile jidOk).tail.isEmpty
          · rfl
          · exact absurd (by simp [hB]) h3
        have h3C : (r1.dropWhile jidOk).tail.all jidOk = true := by
          cases hC : (r1.dropWhile jidOk).tail.all jidOk
          · exact absurd (by simp [hC]) h3
          · rfl
        subst h4; subst h5
        refine ⟨h3A, hall, h3C, ?_⟩
        rw [if_neg (by simp [h3B])]
        rw [hcons] at hsplit
        exact hsplit.symm
    · rw [if_neg h2] at h; exact absurd h (by simp)

/-- Completeness of the suffix match: a non-empty domain and resource over
the jidOk class are recovered exactly from their rendering. -/
theorem parseTail_complete (d r : List Char) (hd : d.isEmpty = false)
    (hda : d.all jidOk = true) (hra : r.all jidOk = true) :
    parseTail (d ++ (if r.isEmpty then [] else '/' :: r)) = some (d, r) := by
  by_cases hr : r.isEmpty = true
  · have hr' : r = [] := by simpa using hr
    subst hr'
    simp only [if_pos (by simp : ([] : List Char).isEmpty = true), List.append_nil]
    obtain ⟨ht, hw⟩ := span_all (p := jidOk) d hda
    simp [parseTail, ht, hw, hd]
  · rw [if_neg hr]
    obtain ⟨ht, hw⟩ := span_break (p := jidOk) d '/' r hda (by simp [jidOk])
    have hre : r.isEmpty = false := by simpa using hr
    simp [parseTail, ht, hw, hd, hre, hra]

/-- Computation rule for jidParseCore when the input starts with a
non-empty jidOk run followed by the at sign. -/
theorem jidParseCore_node (l t : List Char)
    (hdw : l.dropWhile jidOk = '@' :: t)
    (ha : (l.takeWhile jidOk).isEmpty = false) :
    jidParseCore l =
      (parseTail t).map fun dr => (l.takeWhile jidOk, dr.1, dr.2) := by
  simp only [jidParseCore, hdw, List.head?_cons, List.tail_cons]
  rw [if_pos trivial, if_neg (by simp [ha])]

/-- Computation rule for jidParseCore when the first delimiter reached is
not the at sign. -/
theorem jidParseCore_plain (l : List Char)
    (hdw : (l.dropWhile jidOk).head? ≠ some '@') :
    jidParseCore l =
      (parseTail l).map fun dr => (([] : List Char), dr.1, dr.2) := by
  simp only [jidParseCore]
  rw [if_neg hdw]

/-- Computation rule for jidParseCore when the input starts directly with
the at sign: no match. -/
theorem jidParseCore_empty_node (l t : List Char)
    (hdw : l.dropWhile jidOk = '@' :: t)
    (ha : (l.takeWhile jidOk).isEmpty = true) :
    jidParseCore l = none := by
  simp only [jidParseCore, hdw, List.head?_cons, List.tail_cons]
  rw [if_pos trivial, if_pos ha]

/-- Soundness of the full JID match: a successful parse yields parts that
satisfy the grammar conditions and whose rendering is the input. -/
theorem jidParseCore_sound (l n d r : List Char)
    (h : jidParseCore l = some (n, d, r)) :
    (!d.isEmpty && n.all jidOk && d.all jidOk && r.all jidOk) = true ∧
    l = renderJid n d r := by
  have hsplit := List.takeWhile_append_dropWhile (p := jidOk) (l := l)
  have hall : (l.takeWhile jidOk).all jidOk = true := List.all_takeWhile
  by_cases h1 : (l.dropWhile jidOk).head? = some '@'
  · have hcons := head?_some_cons h1
    by_cases h2 : (l.takeWhile jidOk).isEmpty = true
    · rw [jidParseCore_empty_node l _ hcons h2] at h
      exact absurd h (by simp)
    · have h2' : (l.takeWhile jidOk).isEmpty = false := by
        cases hx : (l.takeWhile jidOk).isEmpty
        · rfl
        · exact absurd hx h2
      rw [jidParseCore_node l _ hcons h2'] at h
      rw [Option.map_eq_some'] at h
      obtain ⟨⟨d', r'⟩, hpt, heq⟩ := h
      simp only [Prod.mk.injEq] at heq
      obtain ⟨hn, hd2, hr2⟩ := heq
      subst hn; subst hd2; subst hr2
      obtain ⟨pd, pda, pra, peq⟩ := parseTail_sound _ _ _ hpt
      constructor
      · simp [pd, hall, pda, pra]
      · rw [renderJid, if_neg (by simp [h2'])]
        rw [hcons, peq] at hsplit
        conv_lhs => rw [← hsplit]
        simp
  · rw [jidParseCore_plain l h1] at h
    rw [Option.map_eq_some'] at h
    obtain ⟨⟨d', r'⟩, hpt, heq⟩ := h
    simp only [Prod.mk.injEq] at heq
    obtain ⟨hn, hd2, hr2⟩ := heq
    subst hn; subst hd2; subst hr2
    obtain ⟨pd, pda, pra, peq⟩ := parseTail_sound _ _ _ hpt
    constructor
    · simp [pd, pda, pra]
    · rw [renderJid]
      simpa using peq

/-- Completeness of the full JID match: parts satisfying the grammar
conditions are recovered exactly from their rendering. -/
theorem jidParseCore_complete (n d r : List Char)
    (hd : d.isEmpty = false) (hna : n.all jidOk = true)
    (hda : d.all jidOk = true) (hra : r.all jidOk = true) :
    jidParseCore (renderJid n d r) = some (n, d, r) := by
  have htail := parseTail_complete d r hd hda hra
  by_cases hn : n.isEmpty = true
  · have hn' : n = [] := by simpa using hn
    subst hn'
    rw [renderJid, if_pos (by simp : ([] : List Char).isEmpty = true),
      List.nil_append]
    by_cases hr : r.isEmpty = true
    · have hr' : r = [] := by simpa using hr
      subst hr'
      rw [if_pos (by simp : ([] : List Char).isEmpty = true), List.append_nil]
      rw [if_pos (by simp : ([] : List Char).isEmpty = true),
        List.append_nil] at htail
      obtain ⟨ht, hw⟩ := span_all (p := jidOk) d hda
      rw [jidParseCore_plain d (by rw [hw]; simp), htail]
      rfl
    · obtain ⟨ht, hw⟩ := span_break (p := jidOk) d '/' r hda (by simp [jidOk])
      rw [if_neg hr] at htail ⊢
      rw [jidParseCore_plain _ (by rw [hw]; simp), htail]
      rfl
  · have hne : n.isEmpty = false := by
      cases hx : n.isEmpty
      · rfl
      · exact absurd hx hn
    rw [renderJid, if_neg hn]
    have hb := span_break (p := jidOk) n '@'
        (d ++ (if r.isEmpty then [] else '/' :: r)) hna (by simp [jidOk])
    have hgoal : n ++ ['@'] ++ d ++ (if r.isEmpty then [] else '/' :: r) =
        n ++ '@' :: (d ++ (if r.isEmpty then [] else '/' :: r)) := by simp
    rw [hgoal]
    rw [jidParseCore_node _ _ hb.2 (by rw [hb.1]; exact hne)]
    rw [hb.1, htail]
    rfl

theorem string_mk_ne_empty (l : List Char) : (String.mk l ≠ "") ↔ l ≠ [] := by
  constructor
  · intro h hl
    exact h (by subst hl; rfl)
  · intro h hseq
    have hseq' : String.mk l = String.mk [] := hseq
    injection hseq' with h2
    exact h h2

theorem isEmpty_eq_nil (l : List Char) : (l.isEmpty = true) = (l = []) := by
  cases l <;> simp

/-- Formatting the JID built from the three character-list parts yields
exactly the rendering of those parts. -/
theorem toStr_mk (n d r : List Char) :
    JID.toStr ⟨String.mk n, String.mk d, String.mk r⟩ = String.mk (renderJid n d r) := by
  have hext : ∀ s t : String, s.data = t.data → s = t := by
    intro s t h
    cases s; cases t
    exact congrArg String.mk h
  have hdata : ∀ s t : String, (s ++ t).data = s.data ++ t.data := fun _ _ => rfl
  have hmkd : ∀ l : List Char, (String.mk l).data = l := fun _ => rfl
  have hat : ("@" : String).data = ['@'] := rfl
  have hsl : ("/" : String).data = ['/'] := rfl
  apply hext
  by_cases hn : n = [] <;> by_cases hr : r = [] <;>
    simp [JID.toStr, renderJid, string_mk_ne_empty, isEmpty_eq_nil, hn, hr,
      hdata, hmkd, hat, hsl, List.append_assoc]

/-- Decomposition of the boolean grammar side conditions. -/
theorem grammar_conds {n d r : List Char}
    (h : (!d.isEmpty && n.all jidOk && d.all jidOk && r.all jidOk) = true) :
    d.isEmpty = false ∧ n.all jidOk = true ∧ d.all jidOk = true ∧
    r.all jidOk = true := by
  simp only [Bool.and_eq_true, Bool.not_eq_true'] at h
  exact ⟨h.1.1.1, h.1.1.2, h.1.2, h.2⟩

/-- A string in the grammar parses successfully. -/
theorem grammar_parse {s : String} (h : JidGrammar s) :
    ∃ p, jidParseCore s.data = some p := by
  obtain ⟨n, d, r, hcond, hrender⟩ := h
  obtain ⟨hd, hna, hda, hra⟩ := grammar_conds hcond
  exact ⟨(n, d, r), by rw [hrender]; exact jidParseCore_complete n d r hd hna hda hra⟩

/-- A successful parse witnesses the grammar. -/
theorem parse_grammar {s : String} {n d r : List Char}
    (h : jidParseCore s.data = some (n, d, r)) : JidGrammar s :=
  ⟨n, d, r, (jidParseCore_sound _ _ _ _ h).1, (jidParseCore_sound _ _ _ _ h).2⟩

theorem not_grammar_at : ¬ JidGrammar "@" := by
  intro h
  obtain ⟨p, hp⟩ := grammar_parse h
  have hz : jidParseCore "@".data = none := by decide
  rw [hz] at hp
  exact absurd hp (by simp)

theorem not_grammar_empty : ¬ JidGrammar "" := by
  intro h
  obtain ⟨p, hp⟩ := grammar_parse h
  have hz : jidParseCore "".data = none := by decide
  rw [hz] at hp
  exact absurd hp (by simp)

/-- C3: for every string s in the JID grammar, parsing succeeds and
formatting the parsed JID reproduces s exactly. -/
theorem jid_roundtrip (s : String) (h : JidGrammar s) :
    ∃ j : JID, jidSet s = some j ∧ j.toStr = s := by
  obtain ⟨data⟩ := s
  obtain ⟨n, d, r, hcond, hrender⟩ := h
  obtain ⟨hd, hna, hda, hra⟩ := grammar_conds hcond
  have hrender' : data = renderJid n d r := hrender
  refine ⟨⟨String.mk n, String.mk d, String.mk r⟩, ?_, ?_⟩
  · show (jidParseCore data).map _ = _
    rw [hrender', jidParseCore_complete n d r hd hna hda hra]
    rfl
  · rw [toStr_mk, hrender']

/-- Witness for C3 at the concrete valid input a at b slash c. -/
theorem jid_roundtrip_witness :
    ∃ j : JID, jidSet "a@b/c" = some j ∧ j.toStr = "a@b/c" :=
  jid_roundtrip "a@b/c" ⟨['a'], ['b'], ['c'], by decide, by decide⟩

/-- C7: every string outside the JID grammar fails to parse (the Go method
returns a format error), the empty string fails because the domain is
empty, and the two concrete positive examples parse to the stated parts. -/
theorem jid_set_cases :
    (∀ s : String, ¬ JidGrammar s → jidSet s = none) ∧
    jidSet "" = none ∧
    jidSet "a@b/c" = some ⟨"a", "b", "c"⟩ ∧
    jidSet "b" = some ⟨"", "b", ""⟩ := by
  refine ⟨?_, by decide, by decide, by decide⟩
  intro s hng
  cases heq : jidSet s with
  | none => rfl
  | some j =>
      rw [jidSet, Option.map_eq_some'] at heq
      obtain ⟨⟨n, d, r⟩, hp, _⟩ := heq
      exact absurd (parse_grammar hp) hng

/-- Witness for C7: the theorem applied at the concrete non-matching input
consisting of a lone at sign. -/
theorem jid_set_cases_witness : jidSet "@" = none :=
  jid_set_cases.1 "@" not_grammar_at

/-- C10: calling Set on a string that does not match the grammar returns
the failure and leaves the receiver fields exactly as they were. -/
theorem jid_set_error_preserves (jid : JID) (val : String)
    (h : ¬ JidGrammar val) :
    (jid.SetGo val).1 = jid ∧ (jid.SetGo val).2.isSome = true := by
  have hnone : jidParseCore val.data = none := by
    cases hx : jidParseCore val.data with
    | none => rfl
    | some p =>
        obtain ⟨n, d, r⟩ := p
        exact absurd (parse_grammar hx) h
  simp [JID.SetGo, hnone]

/-- Witness for C10 at a concrete receiver and the non-matching input
consisting of a lone at sign. -/
theorem jid_set_error_preserves_witness :
    (JID.SetGo ⟨"x", "y", "z"⟩ "@").1 = ⟨"x", "y", "z"⟩ ∧
    (JID.SetGo ⟨"x", "y", "z"⟩ "@").2.isSome = true :=
  jid_set_error_preserves ⟨"x", "y", "z"⟩ "@" not_grammar_at

/-! ## XML escaping and the stream header -/

/-- Escaping of one character by the standard library routine used by the
source (xml.Escape): the five XML special characters and the three
whitespace control characters become character references, every other
character passes through. -/
def escChar (c : Char) : List Char :=
  if c = '"' then "&#34;".data
  else if c = '\'' then "&#39;".data
  else if c = '&' then "&amp;".data
  else if c = '<' then "&lt;".data
  else if c = '>' then "&gt;".data
  else if c = '\t' then "&#x9;".data
  else if c = '\n' then "&#xA;".data
  else if c = '\r' then "&#xD;".data
  else [c]

def escList (l : List Char) : List Char :=
  l.foldr (fun c acc => escChar c ++ acc) []

/-- xml.Escape of the standard library, as used by stream.String and
writeField: escape every character of the string in order. -/
def escapeXml (s : String) : String := String.mk (escList s.data)

theorem escChar_no_lt (c : Char) : '<' ∉ escChar c := by
  unfold escChar
  split_ifs with h1 h2 h3 h4 h5 h6 h7 h8
  · decide
  · decide
  · decide
  · decide
  · decide
  · decide
  · decide
  · decide
  · simp
    exact fun h => h4 h.symm

theorem escList_no_lt : ∀ l : List Char, '<' ∉ escList l := by
  intro l
  induction l with
  | nil => simp [escList]
  | cons c t ih =>
      simp only [escList, List.foldr_cons, List.mem_append]
      push_neg
      exact ⟨escChar_no_lt c, by simpa [escList] using ih⟩

/-- Modelled from the spec: NsClient and NsStream are package constants of
this repository that are defined outside the provided source files.  The
client namespace literal appears verbatim in the older revision of
stream.MarshalXML, and the streams namespace URL appears in the struct tags
of structs.go. -/
def NsClient : String := "jabber:client"

/-- Modelled from the spec: see NsClient. -/
def NsStream : String := "http://etherx.jabber.org/streams"

/-- The stream struct from structs.go lines 34 to 41: the five optional
attributes of the stream opening tag. -/
structure stream where
  To : String
  From : String
  Id : String
  Lang : String
  Version : String
deriving DecidableEq

/-- stream.String from structs.go lines 206 to 240: sequential buffer
writes of the fixed prefix and of each attribute guarded by a non-emptiness
test, ending with a closing angle bracket and never with a closing tag. -/
def stream.toStr (s : stream) : String :=
  let buf := "<stream:stream xmlns=\""
  let buf := buf ++ NsClient
  let buf := buf ++ "\" xmlns:stream=\""
  let buf := buf ++ NsStream
  let buf := buf ++ "\""
  let buf := if s.To ≠ "" then buf ++ " to=\"" ++ escapeXml s.To ++ "\"" else buf
  let buf := if s.From ≠ "" then buf ++ " from=\"" ++ escapeXml s.From ++ "\"" else buf
  let buf := if s.Id ≠ "" then buf ++ " id=\"" ++ escapeXml s.Id ++ "\"" else buf
  let buf := if s.Lang ≠ "" then buf ++ " xml:lang=\"" ++ escapeXml s.Lang ++ "\"" else buf
  let buf := if s.Version ≠ "" then buf ++ " version=\"" ++ escapeXml s.Version ++ "\"" else buf
  buf ++ ">"

/-- One optional attribute as the specification describes it: nothing when
the value is empty, otherwise a space, the attribute name, and the escaped
value in double quotes. -/
def attrIf (name value : String) : String :=
  if value = "" then "" else " " ++ name ++ "=\"" ++ escapeXml value ++ "\""

theorem data_append (s t : String) : (s ++ t).data = s.data ++ t.data := rfl

theorem attrIf_no_lt (name value : String) (h : '<' ∉ name.data) :
    '<' ∉ (attrIf name value).data := by
  unfold attrIf
  split_ifs with h1
  · simp
  · intro hmem
    simp only [data_append, List.mem_append] at hmem
    rcases hmem with (((hx | hx) | hx) | hx) | hx
    · revert hx; decide
    · exact h hx
    · revert hx; decide
    · exact escList_no_lt _ hx
    · revert hx; decide

/-- No occurrence of an opening angle bracket followed by a slash inside a
list that starts with an opening angle bracket, contains no other opening
angle bracket, and whose second character is not a slash. -/
theorem no_close_tag {t : List Char} (hlt : '<' ∉ t) (hhd : t.head? ≠ some '/')
    (p : List Char) : ¬ (('<' :: '/' :: p) <:+: ('<' :: t)) := by
  rintro ⟨u, v, huv⟩
  cases u with
  | nil =>
      simp only [List.nil_append, List.cons_append, List.cons.injEq] at huv
      exact hhd (by rw [← huv.2]; rfl)
  | cons a u' =>
      simp only [List.cons_append, List.cons.injEq] at huv
      apply hlt
      rw [← huv.2]
      simp

/-- C2: for every stream header value, the encoding is the opening
stream:stream tag with the attributes in the fixed order xmlns,
xmlns:stream, to, from, id, xml:lang, version, every empty attribute
omitted entirely, the lang attribute rendered with the xml: prefix; the
output ends with a closing angle bracket and contains no closing
stream:stream tag. -/
theorem stream_string_spec (s : stream) :
    stream.toStr s =
      "<stream:stream xmlns=\"" ++ NsClient ++ "\" xmlns:stream=\"" ++ NsStream ++ "\"" ++
        attrIf "to" s.To ++ attrIf "from" s.From ++ attrIf "id" s.Id ++
        attrIf "xml:lang" s.Lang ++ attrIf "version" s.Version ++ ">" ∧
    (stream.toStr s).data.getLast? = some '>' ∧
    ¬ ("</stream:stream>".data <:+: (stream.toStr s).data) := by
  have hdecomp : stream.toStr s =
      "<stream:stream xmlns=\"" ++ NsClient ++ "\" xmlns:stream=\"" ++ NsStream ++ "\"" ++
        attrIf "to" s.To ++ attrIf "from" s.From ++ attrIf "id" s.Id ++
        attrIf "xml:lang" s.Lang ++ attrIf "version" s.Version ++ ">" := by
    have m1 : ∀ x : String, "\"" ++ (" to=\"" ++ x) = "\" to=\"" ++ x := fun x => by
      rw [← String.append_assoc]
      exact congrArg (· ++ x) (by decide)
    have m2 : ∀ x : String, "\"" ++ (" from=\"" ++ x) = "\" from=\"" ++ x := fun x => by
      rw [← String.append_assoc]
      exact congrArg (· ++ x) (by decide)
    have m3 : ∀ x : String, "\"" ++ (" id=\"" ++ x) = "\" id=\"" ++ x := fun x => by
      rw [← String.append_assoc]
      exact congrArg (· ++ x) (by decide)
    have m4 : ∀ x : String, "\"" ++ (" xml:lang=\"" ++ x) = "\" xml:lang=\"" ++ x :=
      fun x => by
        rw [← String.append_assoc]
        exact congrArg (· ++ x) (by decide)
    have m5 : ∀ x : String, "\"" ++ (" version=\"" ++ x) = "\" version=\"" ++ x :=
      fun x => by
        rw [← String.append_assoc]
        exact congrArg (· ++ x) (by decide)
    by_cases h1 : s.To = "" <;> by_cases h2 : s.From = "" <;>
      by_cases h3 : s.Id = "" <;> by_cases h4 : s.Lang = "" <;>
        by_cases h5 : s.Version = "" <;>
          simp [stream.toStr, attrIf, h1, h2, h3, h4, h5, String.append_assoc,
            String.append_empty, String.empty_append, m1, m2, m3, m4, m5]
  refine ⟨hdecomp, ?_, ?_⟩
  · rw [hdecomp, data_append]
    exact List.getLast?_concat _
  · rw [hdecomp]
    have hshape : ("<stream:stream xmlns=\"" ++ NsClient ++ "\" xmlns:stream=\"" ++
          NsStream ++ "\"" ++ attrIf "to" s.To ++ attrIf "from" s.From ++
          attrIf "id" s.Id ++ attrIf "xml:lang" s.Lang ++
          attrIf "version" s.Version ++ ">").data =
        '<' ::
          ("stream:stream xmlns=\"jabber:client\" xmlns:stream=\"http://etherx.jabber.org/streams\"".data ++
            (attrIf "to" s.To).data ++ (attrIf "from" s.From).data ++
            (attrIf "id" s.Id).data ++ (attrIf "xml:lang" s.Lang).data ++
            (attrIf "version" s.Version).data ++ ['>']) := rfl
    rw [hshape]
    have hlt : '<' ∉
        ("stream:stream xmlns=\"jabber:client\" xmlns:stream=\"http://etherx.jabber.org/streams\"".data ++
          (attrIf "to" s.To).data ++ (attrIf "from" s.From).data ++
          (attrIf "id" s.Id).data ++ (attrIf "xml:lang" s.Lang).data ++
          (attrIf "version" s.Version).data ++ ['>']) := by
      intro hmem
      simp only [List.mem_append] at hmem
      rcases hmem with ((((((h0 | h1) | h2) | h3) | h4) | h5) | h6)
      · revert h0; decide
      · exact attrIf_no_lt _ _ (by decide) h1
      · exact attrIf_no_lt _ _ (by decide) h2
      · exact attrIf_no_lt _ _ (by decide) h3
      · exact attrIf_no_lt _ _ (by decide) h4
      · exact attrIf_no_lt _ _ (by decide) h5
      · revert h6; decide
    have hhd :
        ("stream:stream xmlns=\"jabber:client\" xmlns:stream=\"http://etherx.jabber.org/streams\"".data ++
          (attrIf "to" s.To).data ++ (attrIf "from" s.From).data ++
          (attrIf "id" s.Id).data ++ (attrIf "xml:lang" s.Lang).data ++
          (attrIf "version" s.Version).data ++ ['>']).head? ≠ some '/' := by
      intro h
      rw [show
        ("stream:stream xmlns=\"jabber:client\" xmlns:stream=\"http://etherx.jabber.org/streams\"".data ++
          (attrIf "to" s.To).data ++ (attrIf "from" s.From).data ++
          (attrIf "id" s.Id).data ++ (attrIf "xml:lang" s.Lang).data ++
          (attrIf "version" s.Version).data ++ ['>']).head? = some 's' from rfl] at h
      exact absurd h (by decide)
    exact no_close_tag hlt hhd _

/-! ## Stream header decoding -/

/-- xml.Name of the standard library: namespace and local part. -/
structure XmlName where
  Space : String
  Local : String
deriving DecidableEq

/-- xml.Attr of the standard library: attribute name and value. -/
structure Attr where
  Name : XmlName
  Value : String
deriving DecidableEq

/-- xml.StartElement of the standard library: element name and attribute
list in document order. -/
structure StartElement where
  Name : XmlName
  Attr : List Attr
deriving DecidableEq

/-- The switch body of the attribute loop of parseStream, structs.go lines
244 to 257: lower-case the local attribute name and assign the matching
field, ignoring unrecognized names.  Lowercasing is modeled by the Lean
String.toLower, which agrees with the Go strings.ToLower on ASCII. -/
def streamAttrStep (s : stream) (attr : Attr) : stream :=
  let k := attr.Name.Local.toLower
  if k = "to" then { s with To := attr.Value }
  else if k = "from" then { s with From := attr.Value }
  else if k = "id" then { s with Id := attr.Value }
  else if k = "lang" then { s with Lang := attr.Value }
  else if k = "version" then { s with Version := attr.Value }
  else s

/-- parseStream from structs.go lines 242 to 259: start from the
zero-valued stream, fold the switch over the attribute list, and return the
stream together with the error, which is always nil. -/
def parseStream (se : StartElement) : stream × Option String :=
  (se.Attr.foldl streamAttrStep ⟨"", "", "", "", ""⟩, none)

/-- The value of the last attribute of the list whose lowercased local name
is the given key, or the empty string when no attribute matches. -/
def lastAttr (key : String) (attrs : List Attr) : String :=
  ((attrs.filter fun a => a.Name.Local.toLower == key).map fun a => a.Value).getLastD ""

theorem streamFold (attrs : List Attr) (s0 : stream) :
    attrs.foldl streamAttrStep s0 =
      ⟨((attrs.filter fun a => a.Name.Local.toLower == "to").map
          fun a => a.Value).getLastD s0.To,
       ((attrs.filter fun a => a.Name.Local.toLower == "from").map
          fun a => a.Value).getLastD s0.From,
       ((attrs.filter fun a => a.Name.Local.toLower == "id").map
          fun a => a.Value).getLastD s0.Id,
       ((attrs.filter fun a => a.Name.Local.toLower == "lang").map
          fun a => a.Value).getLastD s0.Lang,
       ((attrs.filter fun a => a.Name.Local.toLower == "version").map
          fun a => a.Value).getLastD s0.Version⟩ := by
  induction attrs generalizing s0 with
  | nil => simp
  | cons a t ih =>
      rw [List.foldl_cons, ih]
      by_cases k1 : a.Name.Local.toLower = "to"
      · have e1 : (a.Name.Local.toLower == "to") = true := beq_iff_eq.mpr k1
        have e2 : (a.Name.Local.toLower == "from") = false := by rw [k1]; decide
        have e3 : (a.Name.Local.toLower == "id") = false := by rw [k1]; decide
        have e4 : (a.Name.Local.toLower == "lang") = false := by rw [k1]; decide
        have e5 : (a.Name.Local.toLower == "version") = false := by rw [k1]; decide
        have hstep : streamAttrStep s0 a = { s0 with To := a.Value } := by
          simp only [streamAttrStep]
          rw [if_pos k1]
        rw [hstep]
        simp only [List.filter_cons, e1, e2, e3, e4, e5, if_true, if_false,
          eq_self_iff_true, Bool.false_eq_true, List.map_cons, List.getLastD_cons]
      · by_cases k2 : a.Name.Local.toLower = "from"
        · have e1 : (a.Name.Local.toLower == "to") = false := by rw [k2]; decide
          have e2 : (a.Name.Local.toLower == "from") = true := beq_iff_eq.mpr k2
          have e3 : (a.Name.Local.toLower == "id") = false := by rw [k2]; decide
          have e4 : (a.Name.Local.toLower == "lang") = false := by rw [k2]; decide
          have e5 : (a.Name.Local.toLower == "version") = false := by rw [k2]; decide
          have hstep : streamAttrStep s0 a = { s0 with From := a.Value } := by
            simp only [streamAttrStep]
            rw [if_neg k1, if_pos k2]
          rw [hstep]
          simp only [List.filter_cons, e1, e2, e3, e4, e5, if_true, if_false,
            eq_self_iff_true, Bool.false_eq_true, List.map_cons, List.getLastD_cons]
        · by_cases k3 : a.Name.Local.toLower = "id"
          · have e1 : (a.Name.Local.toLower == "to") = false := by rw [k3]; decide
            have e2 : (a.Name.Local.toLower == "from") = false := by rw [k3]; decide
            have e3 : (a.Name.Local.toLower == "id") = true := beq_iff_eq.mpr k3
            have e4 : (a.Name.Local.toLower == "lang") = false := by rw [k3]; decide
            have e5 : (a.Name.Local.toLower == "version") = false := by rw [k3]; decide
            have hstep : streamAttrStep s0 a = { s0 with Id := a.Value } := by
              simp only [streamAttrStep]
              rw [if_neg k1, if_neg k2, if_pos k3]
            rw [hstep]
            simp only [List.filter_cons, e1, e2, e3, e4, e5, if_true, if_false,
              eq_self_iff_true, Bool.false_eq_true, List.map_cons, List.getLastD_cons]
          · by_cases k4 : a.Name.Local.toLower = "lang"
            · have e1 : (a.Name.Local.toLower == "to") = false := by rw [k4]; decide
              have e2 : (a.Name.Local.toLower == "from") = false := by rw [k4]; decide
              have e3 : (a.Name.Local.toLower == "id") = false := by rw [k4]; decide
              have e4 : (a.Name.Local.toLower == "lang") = true := beq_iff_eq.mpr k4
              have e5 : (a.Name.Local.toLower == "version") = false := by
                rw [k4]; decide
              have hstep : streamAttrStep s0 a = { s0 with Lang := a.Value } := by
                simp only [streamAttrStep]
                rw [if_neg k1, if_neg k2, if_neg k3, if_pos k4]
              rw [hstep]
              simp only [List.filter_cons, e1, e2, e3, e4, e5, if_true, if_false,
                eq_self_iff_true, Bool.false_eq_true, List.map_cons,
                List.getLastD_cons]
            · by_cases k5 : a.Name.Local.toLower = "version"
              · have e1 : (a.Name.Local.toLower == "to") = false := by rw [k5]; decide
                have e2 : (a.Name.Local.toLower == "from") = false := by
                  rw [k5]; decide
                have e3 : (a.Name.Local.toLower == "id") = false := by rw [k5]; decide
                have e4 : (a.Name.Local.toLower == "lang") = false := by
                  rw [k5]; decide
                have e5 : (a.Name.Local.toLower == "version") = true :=
                  beq_iff_eq.mpr k5
                have hstep : streamAttrStep s0 a = { s0 with Version := a.Value } := by
                  simp only [streamAttrStep]
                  rw [if_neg k1, if_neg k2, if_neg k3, if_neg k4, if_pos k5]
                rw [hstep]
                simp only [List.filter_cons, e1, e2, e3, e4, e5, if_true, if_false,
                  eq_self_iff_true, Bool.false_eq_true, List.map_cons,
                  List.getLastD_cons]
              · have e1 : (a.Name.Local.toLower == "to") = false :=
                  beq_eq_false_iff_ne.mpr k1
                have e2 : (a.Name.Local.toLower == "from") = false :=
                  beq_eq_false_iff_ne.mpr k2
                have e3 : (a.Name.Local.toLower == "id") = false :=
                  beq_eq_false_iff_ne.mpr k3
                have e4 : (a.Name.Local.toLower == "lang") = false :=
                  beq_eq_false_iff_ne.mpr k4
                have e5 : (a.Name.Local.toLower == "version") = false :=
                  beq_eq_false_iff_ne.mpr k5
                have hstep : streamAttrStep s0 a = s0 := by
                  simp only [streamAttrStep]
                  rw [if_neg k1, if_neg k2, if_neg k3, if_neg k4, if_neg k5]
                rw [hstep]
                simp only [List.filter_cons, e1, e2, e3, e4, e5, if_true, if_false,
                  eq_self_iff_true, Bool.false_eq_true, List.map_cons,
                  List.getLastD_cons]

/-- C6: stream header decode never fails: for every start-element event it
returns nil error and the stream whose every field holds the value of the
last attribute matching that field case-insensitively by local name, with
unrecognized attributes ignored and unmatched fields left at the
empty-string default. -/
theorem parseStream_spec (se : StartElement) :
    parseStream se =
      (⟨lastAttr "to" se.Attr, lastAttr "from" se.Attr, lastAttr "id" se.Attr,
        lastAttr "lang" se.Attr, lastAttr "version" se.Attr⟩, none) := by
  rw [parseStream, streamFold]
  rfl

/-! ## Generic elements -/

/-- Generic from structs.go lines 171 to 175: an opaque element holding its
name, at most one nested Generic, and character data. -/
inductive Generic where
  | mk (XMLName : XmlName) (Any : Option Generic) (Chardata : String)

def Generic.xmlName : Generic → XmlName
  | .mk nm _ _ => nm

def Generic.any : Generic → Option Generic
  | .mk _ a _ => a

def Generic.chardata : Generic → String
  | .mk _ _ cd => cd

/-- The non-nil branch of Generic.String from structs.go lines 261 to 272:
format the name pair, the recursively rendered nested element when present,
and the character data with no escaping, inside matching tags. -/
def Generic.str : Generic → String
  | .mk nm any cd =>
      let sub := match any with
        | none => ""
        | some g => g.str
      "<" ++ nm.Space ++ " " ++ nm.Local ++ ">" ++ sub ++ cd ++
        "</" ++ nm.Space ++ " " ++ nm.Local ++ ">"

/-- Generic.String from structs.go lines 261 to 272 with the possibly-nil
receiver made explicit: the nil receiver renders as the sentinel. -/
def genericString : Option Generic → String
  | none => "nil"
  | some g => g.str

/-- C8: stringifying an absent Generic never fails and returns the fixed
sentinel string. -/
theorem generic_string_nil : genericString none = "nil" := rfl

/-- Counterexample to C5 as stated: the character data is not escaped for
XML; a Generic whose character data is an opening angle bracket renders it
verbatim, not as the XML character reference. -/
theorem generic_string_unescaped :
    genericString (some (.mk ⟨"ns", "a"⟩ none "<")) = "<ns a><</ns a>" ∧
    genericString (some (.mk ⟨"ns", "a"⟩ none "<")) ≠
      "<ns a>" ++ escapeXml "<" ++ "</ns a>" := by
  constructor
  · rfl
  · decide

/-- C5 amended: the encoding of a non-nil Generic is the open tag over the
space and local name, then the encoding of the nested Generic if present,
then the character data verbatim with no XML escaping, then the matching
close tag. -/
theorem generic_string_spec (g : Generic) :
    genericString (some g) =
      "<" ++ g.xmlName.Space ++ " " ++ g.xmlName.Local ++ ">" ++
        (match g.any with
          | none => ""
          | some n => genericString (some n)) ++
        g.chardata ++
        "</" ++ g.xmlName.Space ++ " " ++ g.xmlName.Local ++ ">" := by
  cases g with
  | mk nm any cd => cases any <;> rfl

/-! ## The hand-rolled stanza marshaler of the older revision -/

/-- Error from the source: the stanza error element with its type attribute
and optional nested Generic. -/
structure Error where
  Type' : String
  Any : Option Generic

/-- writeField from the older revision lines 265 to 273: nothing when the
value is empty, otherwise a space, the field name, and the escaped value in
double quotes. -/
def writeField (field value : String) : String :=
  if value ≠ "" then " " ++ field ++ "=\"" ++ escapeXml value ++ "\"" else ""

/-- Modelled from the spec: the standard library xml.Marshal of a Generic
value, which is not part of the provided sources.  Section 4.2 of the
specification describes the encoding as the open tag over the name, the
nested encoding if present, the escaped text, and the close tag. -/
def xmlMarshalGeneric : Generic → String
  | .mk nm any cd =>
      let sub := match any with
        | none => ""
        | some g => xmlMarshalGeneric g
      "<" ++ nm.Space ++ ":" ++ nm.Local ++ ">" ++ sub ++ escapeXml cd ++
        "</" ++ nm.Space ++ ":" ++ nm.Local ++ ">"

/-- Error.MarshalXML from the older revision lines 323 to 333: the error
open tag with the type attribute, the marshaled nested element if present,
and the close tag. -/
def Error.marshalXML (er : Error) : String :=
  let buf := "<error"
  let buf := buf ++ writeField "type" er.Type'
  let buf := buf ++ ">"
  let buf := match er.Any with
    | some g => buf ++ xmlMarshalGeneric g
    | none => buf
  buf ++ "</error>"

/-- RosterItem from the older revision lines 154 to 161. -/
structure RosterItem where
  Jid : String
  Subscription : String
  Name : String
  Group : List String
deriving DecidableEq

/-- RosterQuery from the older revision lines 147 to 151. -/
structure RosterQuery where
  Item : List RosterItem
deriving DecidableEq

/-- Modelled from the spec: the standard library xml.Marshal of one roster
item, which is not part of the provided sources; attributes then group
elements inside an item wrapper. -/
def xmlMarshalRosterItem (it : RosterItem) : String :=
  "<item" ++ writeField "jid" it.Jid ++ writeField "subscription" it.Subscription ++
    writeField "name" it.Name ++ ">" ++
    String.join (it.Group.map fun g => "<group>" ++ escapeXml g ++ "</group>") ++
    "</item>"

/-- Modelled from the spec: the standard library xml.Marshal of a roster
query, which is not part of the provided sources; items inside a query
wrapper. -/
def xmlMarshalRosterQuery (q : RosterQuery) : String :=
  "<query>" ++ String.join (q.Item.map xmlMarshalRosterItem) ++ "</query>"

/-- Message of the older revision lines 101 to 112. -/
structure OldMessage where
  To : String
  From : String
  Id : String
  Type' : String
  Lang : String
  Error : Option Error
  Subject : Option Generic
  Body : Option Generic
  Thread : Option Generic
  Any : Option Generic

/-- Presence of the older revision lines 117 to 128. -/
structure OldPresence where
  To : String
  From : String
  Id : String
  Type' : String
  Lang : String
  Error : Option Error
  Show : Option Generic
  Status : Option Generic
  Priority : Option Generic
  Any : Option Generic

/-- Iq of the older revision lines 133 to 142. -/
structure OldIq where
  To : String
  From : String
  Id : String
  Type' : String
  Lang : String
  Error : Option Error
  Any : Option Generic
  Query : Option RosterQuery

/-- The closed Stanza family of the older revision: the three variants
behind the Stanza interface. -/
inductive OldStanza where
  | message (m : OldMessage)
  | presence (p : OldPresence)
  | iq (v : OldIq)

def OldStanza.XName : OldStanza → String
  | .message _ => "message"
  | .presence _ => "presence"
  | .iq _ => "iq"

def OldStanza.XTo : OldStanza → String
  | .message m => m.To
  | .presence p => p.To
  | .iq v => v.To

def OldStanza.XFrom : OldStanza → String
  | .message m => m.From
  | .presence p => p.From
  | .iq v => v.From

def OldStanza.XId : OldStanza → String
  | .message m => m.Id
  | .presence p => p.Id
  | .iq v => v.Id

def OldStanza.XType : OldStanza → String
  | .message m => m.Type'
  | .presence p => p.Type'
  | .iq v => v.Type'

def OldStanza.XLang : OldStanza → String
  | .message m => m.Lang
  | .presence p => p.Lang
  | .iq v => v.Lang

def OldStanza.XError : OldStanza → Option Error
  | .message m => m.Error
  | .presence p => p.Error
  | .iq v => v.Error

def OldStanza.XChild : OldStanza → Option Generic
  | .message m => m.Any
  | .presence p => p.Any
  | .iq v => v.Any

/-- marshalXML from the older revision lines 287 to 321: sequential buffer
writes of the open tag with guarded header attributes, the error child, the
single generic child, the roster query of an Iq, and the close tag. -/
def oldMarshalXML (st : OldStanza) : String :=
  let buf := "<"
  let buf := buf ++ st.XName
  let buf := if st.XTo ≠ "" then buf ++ writeField "to" st.XTo else buf
  let buf := if st.XFrom ≠ "" then buf ++ writeField "from" st.XFrom else buf
  let buf := if st.XId ≠ "" then buf ++ writeField "id" st.XId else buf
  let buf := if st.XType ≠ "" then buf ++ writeField "type" st.XType else buf
  let buf := if st.XLang ≠ "" then buf ++ writeField "xml:lang" st.XLang else buf
  let buf := buf ++ ">"
  let buf := match st.XError with
    | some e => buf ++ e.marshalXML
    | none => buf
  let buf := match st.XChild with
    | some g => buf ++ xmlMarshalGeneric g
    | none => buf
  let buf := match st with
    | .iq v =>
        match v.Query with
        | some q => buf ++ xmlMarshalRosterQuery q
        | none => buf
    | _ => buf
  let buf := buf ++ "</"
  let buf := buf ++ st.XName
  buf ++ ">"

/-- The Message with only a subject child set, used to exhibit that the
marshaler never emits the variant-specific known children. -/
def c4msg : OldMessage :=
  ⟨"", "", "", "", "", none, some (.mk ⟨"", "subject"⟩ none "hello"), none, none, none⟩

/-- Counterexample to C4 as stated: encoding a Message whose subject child
is present yields output with no subject element at all; neither the word
subject nor the character data of the child occurs in the output. -/
theorem old_marshal_drops_subject :
    c4msg.Subject.isSome = true ∧
    oldMarshalXML (.message c4msg) = "<message></message>" ∧
    ¬ ("subject".data <:+: (oldMarshalXML (.message c4msg)).data) ∧
    ¬ ("hello".data <:+: (oldMarshalXML (.message c4msg)).data) := by
  refine ⟨rfl, by decide, by decide, by decide⟩

theorem guard_writeField (buf f v : String) :
    (if v ≠ "" then buf ++ writeField f v else buf) = buf ++ writeField f v := by
  by_cases hv : v = ""
  · simp [hv, writeField, String.append_empty]
  · simp [hv]

/-- C4 amended: the older-revision marshaler emits the open tag with the
attributes to, from, id, type, xml:lang in that order with empty attributes
omitted, then the error child if present, then the single generic child if
present, then for an Iq the roster query if present, then the closing tag;
the variant-specific known children (subject, body, thread, show, status,
priority) are never emitted. -/
theorem oldMarshalXML_spec (st : OldStanza) :
    (oldMarshalXML st =
      "<" ++ st.XName ++ writeField "to" st.XTo ++ writeField "from" st.XFrom ++
        writeField "id" st.XId ++ writeField "type" st.XType ++
        writeField "xml:lang" st.XLang ++ ">" ++
        (match st.XError with
          | some e => e.marshalXML
          | none => "") ++
        (match st.XChild with
          | some g => xmlMarshalGeneric g
          | none => "") ++
        (match st with
          | .iq v =>
              match v.Query with
              | some q => xmlMarshalRosterQuery q
              | none => ""
          | _ => "") ++
        "</" ++ st.XName ++ ">") ∧
    (∀ m : OldMessage,
      oldMarshalXML (.message m) =
        oldMarshalXML (.message { m with Subject := none, Body := none, Thread := none })) ∧
    (∀ p : OldPresence,
      oldMarshalXML (.presence p) =
        oldMarshalXML (.presence { p with Show := none, Status := none, Priority := none })) := by
  refine ⟨?_, fun m => rfl, fun p => rfl⟩
  simp only [oldMarshalXML, guard_writeField]
  cases st with
  | message m =>
      cases hE : m.Error <;> cases hA : m.Any <;>
        simp [hE, hA, OldStanza.XName, OldStanza.XTo, OldStanza.XFrom,
          OldStanza.XId, OldStanza.XType, OldStanza.XLang, OldStanza.XError,
          OldStanza.XChild, String.append_assoc, String.append_empty]
  | presence p =>
      cases hE : p.Error <;> cases hA : p.Any <;>
        simp [hE, hA, OldStanza.XName, OldStanza.XTo, OldStanza.XFrom,
          OldStanza.XId, OldStanza.XType, OldStanza.XLang, OldStanza.XError,
          OldStanza.XChild, String.append_assoc, String.append_empty]
  | iq v =>
      cases hE : v.Error <;> cases hA : v.Any <;> cases hQ : v.Query <;>
        simp [hE, hA, hQ, OldStanza.XName, OldStanza.XTo, OldStanza.XFrom,
          OldStanza.XId, OldStanza.XType, OldStanza.XLang, OldStanza.XError,
          OldStanza.XChild, String.append_assoc, String.append_empty]

/-! ## Stanza parsing and dispatch

ParseStanza from structs.go lines 322 to 349 reads the first XML token of
the input, requires it to be a start element, switches on the local name of
the root element, and decodes the element into the selected variant.  The
token stream and the structural decode are produced by the standard library
XML decoder, which is not part of the provided sources; both are modeled
below, the tokenizer for the simple attribute-free documents used in the
examples and the decode following the struct tags and section 4.4 of the
specification. -/

/-- One XML token of the standard library decoder. -/
inductive Tok where
  | startElement (se : StartElement)
  | endElement (name : XmlName)
  | charData (s : String)

def isNameChar (c : Char) : Bool := c.isAlpha

/-- Modelled from the spec: the token stream the standard library XML
decoder produces, restricted to tags without attributes, self-closing tags
(which yield a start token and an end token), closing tags, and character
data; anything else is a decode error.  The decoder itself is not part of
the provided sources. -/
def tokenizeAux : Nat → List Char → Except String (List Tok)
  | 0, _ => .error "no fuel"
  | _ + 1, [] => .ok []
  | n + 1, '<' :: '/' :: rest =>
      let nm := rest.takeWhile isNameChar
      if nm.isEmpty then .error "XML syntax error"
      else
        match rest.dropWhile isNameChar with
        | '>' :: rest2 =>
            (tokenizeAux n rest2).map fun ts => .endElement ⟨"", String.mk nm⟩ :: ts
        | _ => .error "XML syntax error"
  | n + 1, '<' :: rest =>
      let nm := rest.takeWhile isNameChar
      if nm.isEmpty then .error "XML syntax error"
      else
        match rest.dropWhile isNameChar with
        | '/' :: '>' :: rest2 =>
            (tokenizeAux n rest2).map fun ts =>
              .startElement ⟨⟨"", String.mk nm⟩, []⟩ :: .endElement ⟨"", String.mk nm⟩ :: ts
        | '>' :: rest2 =>
            (tokenizeAux n rest2).map fun ts => .startElement ⟨⟨"", String.mk nm⟩, []⟩ :: ts
        | _ => .error "XML syntax error"
  | n + 1, l =>
      let txt := l.takeWhile fun c => c != '<'
      (tokenizeAux n (l.dropWhile fun c => c != '<')).map fun ts =>
        .charData (String.mk txt) :: ts

def tokenize (str : String) : Except String (List Tok) :=
  tokenizeAux (str.data.length + 1) str.data

/-- The shared header fields of the three stanza variants. -/
structure Hdr where
  To : String
  From : String
  Id : String
  Type' : String
  Lang : String

def xmlURL : String := "http://www.w3.org/XML/1998/namespace"

/-- Modelled from the spec: the binding of one attribute the standard
library unmarshaler performs for the header struct tags of the stanza
types; the lang tag carries the xml namespace, the others match by local
name, and a later matching attribute overwrites an earlier one. -/
def hdrStep (h : Hdr) (a : Attr) : Hdr :=
  if a.Name.Local = "to" then { h with To := a.Value }
  else if a.Name.Local = "from" then { h with From := a.Value }
  else if a.Name.Local = "id" then { h with Id := a.Value }
  else if a.Name.Local = "type" then { h with Type' := a.Value }
  else if a.Name.Local = "lang" ∧ (a.Name.Space = "xml" ∨ a.Name.Space = xmlURL) then
    { h with Lang := a.Value }
  else h

def stanzaHdr (attrs : List Attr) : Hdr :=
  attrs.foldl hdrStep ⟨"", "", "", "", ""⟩

/-- Modelled from the spec: structural decode of a Generic child element:
the name comes from the tag, the character data accumulates across text
nodes, and the first nested element is kept. -/
def decodeGenericAux : Nat → XmlName → String → Option Generic → List Tok →
    Except String (Generic × List Tok)
  | 0, _, _, _, _ => .error "depth limit"
  | _ + 1, _, _, _, [] => .error "unexpected EOF"
  | n + 1, nm, cd, any, t :: rest =>
      match t with
      | .charData s => decodeGenericAux n nm (cd ++ s) any rest
      | .endElement _ => .ok (⟨nm, any, cd⟩, rest)
      | .startElement se =>
          match decodeGenericAux n se.Name "" none rest with
          | .error e => .error e
          | .ok (g, rest2) =>
              decodeGenericAux n nm cd (if any.isNone then some g else any) rest2

/-- The type attribute of an error element: the last attribute whose local
name is type. -/
def errorTypeOfAttrs (attrs : List Attr) : String :=
  attrs.foldl (fun ty a => if a.Name.Local = "type" then a.Value else ty) ""

/-- Modelled from the spec: structural decode of the content of an error
element: character data is ignored and the first nested element becomes
the nested Generic. -/
def decodeErrorAux : Nat → Option Generic → List Tok →
    Except String (Option Generic × List Tok)
  | 0, _, _ => .error "depth limit"
  | _ + 1, _, [] => .error "unexpected EOF"
  | n + 1, any, t :: rest =>
      match t with
      | .charData _ => decodeErrorAux n any rest
      | .endElement _ => .ok (any, rest)
      | .startElement se =>
          match decodeGenericAux n se.Name "" none rest with
          | .error e => .error e
          | .ok (g, rest2) => decodeErrorAux n (if any.isNone then some g else any) rest2

/-- Split the token stream into the content of the current element (up to
its matching end token) and the remainder after that end token. -/
def splitContentAux : Nat → List Tok → Nat → List Tok →
    Except String (List Tok × List Tok)
  | 0, _, _, _ => .error "depth limit"
  | _ + 1, _, _, [] => .error "unexpected EOF"
  | n + 1, acc, depth, t :: rest =>
      match t with
      | .endElement _ =>
          if depth = 0 then .ok (acc.reverse, rest)
          else splitContentAux n (t :: acc) (depth - 1) rest
      | .startElement _ => splitContentAux n (t :: acc) (depth + 1) rest
      | .charData _ => splitContentAux n (t :: acc) depth rest

/-- Modelled from the spec: the verbatim inner-XML capture of a stanza is
represented by a direct re-rendering of its content tokens. -/
def renderTok : Tok → String
  | .startElement se => "<" ++ se.Name.Local ++ ">"
  | .endElement nm => "</" ++ nm.Local ++ ">"
  | .charData s => s

def renderToks (ts : List Tok) : String :=
  String.join (ts.map renderTok)

/-- Modelled from the spec, section 4.4: walk the content of a stanza in
document order; an error child binds the error field, a child whose local
name is one of the variant-specific slot names binds that slot, and every
other child is skipped whole, surviving only in the raw inner-XML
capture. -/
def walkContent : Nat → List String → Option Error → List (String × Generic) →
    List Tok → Except String (Option Error × List (String × Generic))
  | 0, _, _, _, _ => .error "depth limit"
  | _ + 1, _, err, slots, [] => .ok (err, slots)
  | n + 1, slotNames, err, slots, t :: rest =>
      match t with
      | .charData _ => walkContent n slotNames err slots rest
      | .endElement _ => .error "unbalanced content"
      | .startElement se =>
          if se.Name.Local = "error" then
            match decodeErrorAux n none rest with
            | .error e => .error e
            | .ok (anyg, rest2) =>
                walkContent n slotNames (some ⟨errorTypeOfAttrs se.Attr, anyg⟩)
                  slots rest2
          else if slotNames.contains se.Name.Local then
            match decodeGenericAux n se.Name "" none rest with
            | .error e => .error e
            | .ok (g, rest2) =>
                walkContent n slotNames err (slots ++ [(se.Name.Local, g)]) rest2
          else
            match splitContentAux n [] 0 rest with
            | .error e => .error e
            | .ok (_, rest2) => walkContent n slotNames err slots rest2

/-- The last Generic bound to a slot name, mirroring the overwrite
semantics of repeated children. -/
def slotGet (slots : List (String × Generic)) (key : String) : Option Generic :=
  ((slots.filter fun p => p.1 == key).map fun p => p.2).getLast?

/-- Message from structs.go lines 106 to 119.  The Nested field holds
extension-decoded values of dynamic type in the source; the stanza parser
never appends to it, so only its list structure is modeled. -/
structure Message where
  To : String
  From : String
  Id : String
  Type' : String
  Lang : String
  Innerxml : String
  Error : Option Error
  Subject : Option Generic
  Body : Option Generic
  Thread : Option Generic
  Nested : List Unit

/-- Presence from structs.go lines 123 to 136; see Message for the Nested
field. -/
structure Presence where
  To : String
  From : String
  Id : String
  Type' : String
  Lang : String
  Innerxml : String
  Error : Option Error
  Show : Option Generic
  Status : Option Generic
  Priority : Option Generic
  Nested : List Unit

/-- Iq from structs.go lines 140 to 150; see Message for the Nested
field. -/
structure Iq where
  To : String
  From : String
  Id : String
  Type' : String
  Lang : String
  Innerxml : String
  Error : Option Error
  Nested : List Unit

/-- The closed family behind the Stanza interface: one of the three core
stanza types. -/
inductive Stanza where
  | iq (v : Iq)
  | message (v : Message)
  | presence (v : Presence)

/-- GetId from structs.go lines 283 to 309: the id attribute of whichever
variant the stanza is. -/
def Stanza.GetId : Stanza → String
  | .iq v => v.Id
  | .message v => v.Id
  | .presence v => v.Id

/-- Modelled from the spec: the structural decode of a message element body
performed by the standard library unmarshaler for the struct tags of
Message. -/
def decodeMessage (se : StartElement) (toks : List Tok) :
    Except String (Message × List Tok) :=
  let h := stanzaHdr se.Attr
  match splitContentAux (toks.length + 1) [] 0 toks with
  | .error e => .error e
  | .ok (content, rest) =>
      match walkContent (content.length + 1) ["subject", "body", "thread"]
          none [] content with
      | .error e => .error e
      | .ok (err, slots) =>
          .ok ({ To := h.To, From := h.From, Id := h.Id, Type' := h.Type',
                 Lang := h.Lang, Innerxml := renderToks content, Error := err,
                 Subject := slotGet slots "subject", Body := slotGet slots "body",
                 Thread := slotGet slots "thread", Nested := [] }, rest)

/-- Modelled from the spec: the structural decode of a presence element
body for the struct tags of Presence. -/
def decodePresence (se : StartElement) (toks : List Tok) :
    Except String (Presence × List Tok) :=
  let h := stanzaHdr se.Attr
  match splitContentAux (toks.length + 1) [] 0 toks with
  | .error e => .error e
  | .ok (content, rest) =>
      match walkContent (content.length + 1) ["show", "status", "priority"]
          none [] content with
      | .error e => .error e
      | .ok (err, slots) =>
          .ok ({ To := h.To, From := h.From, Id := h.Id, Type' := h.Type',
                 Lang := h.Lang, Innerxml := renderToks content, Error := err,
                 Show := slotGet slots "show", Status := slotGet slots "status",
                 Priority := slotGet slots "priority", Nested := [] }, rest)

/-- Modelled from the spec: the structural decode of an iq element body for
the struct tags of Iq, which has no variant-specific slots. -/
def decodeIq (se : StartElement) (toks : List Tok) :
    Except String (Iq × List Tok) :=
  let h := stanzaHdr se.Attr
  match splitContentAux (toks.length + 1) [] 0 toks with
  | .error e => .error e
  | .ok (content, rest) =>
      match walkContent (content.length + 1) [] none [] content with
      | .error e => .error e
      | .ok (err, _) =>
          .ok ({ To := h.To, From := h.From, Id := h.Id, Type' := h.Type',
                 Lang := h.Lang, Innerxml := renderToks content, Error := err,
                 Nested := [] }, rest)

/-- The body of ParseStanza from structs.go lines 322 to 349 over the token
stream: take the first token, require a start element, switch on the local
name of the root element, decode into the selected variant, and fail with
the unrecognized-stanza error for every other name. -/
def parseStanzaToks (toks : List Tok) : Except String Stanza :=
  match toks with
  | [] => .error "EOF"
  | t :: rest =>
      match t with
      | .startElement se =>
          if se.Name.Local = "iq" then
            match decodeIq se rest with
            | .error e => .error e
            | .ok (v, _) => .ok (.iq v)
          else if se.Name.Local = "message" then
            match decodeMessage se rest with
            | .error e => .error e
            | .ok (v, _) => .ok (.message v)
          else if se.Name.Local = "presence" then
            match decodePresence se rest with
            | .error e => .error e
            | .ok (v, _) => .ok (.presence v)
          else .error "Not iq, message, or presence"
      | _ => .error "Not a start element"

/-- ParseStanza from structs.go lines 322 to 349: tokenize the input string
and run the dispatch over the token stream. -/
def ParseStanza (str : String) : Except String Stanza :=
  match tokenize str with
  | .error e => .error e
  | .ok toks => parseStanzaToks toks

/-- C1: when the first token is a start element, the variant of the result
is selected solely by the local name of the root element: any name other
than iq, message, presence fails with the unrecognized-stanza error and
yields no stanza value, a successful parse of an iq root is an Iq value,
of a message root a Message value, of a presence root a Presence value;
in particular decoding the document with root foo fails. -/
theorem parseStanza_dispatch (se : StartElement) (rest : List Tok) :
    (se.Name.Local ≠ "iq" → se.Name.Local ≠ "message" → se.Name.Local ≠ "presence" →
      parseStanzaToks (.startElement se :: rest) = .error "Not iq, message, or presence") ∧
    (∀ s, parseStanzaToks (.startElement se :: rest) = .ok s →
      (se.Name.Local = "iq" ∧ ∃ v, s = .iq v) ∨
      (se.Name.Local = "message" ∧ ∃ v, s = .message v) ∨
      (se.Name.Local = "presence" ∧ ∃ v, s = .presence v)) ∧
    ParseStanza "<foo/>" = .error "Not iq, message, or presence" := by
  refine ⟨?_, ?_, rfl⟩
  · intro h1 h2 h3
    simp only [parseStanzaToks]
    rw [if_neg h1, if_neg h2, if_neg h3]
  · intro s hs
    simp only [parseStanzaToks] at hs
    by_cases h1 : se.Name.Local = "iq"
    · rw [if_pos h1] at hs
      left
      refine ⟨h1, ?_⟩
      cases hd : decodeIq se rest with
      | error e => rw [hd] at hs; exact absurd hs (by simp)
      | ok p =>
          obtain ⟨v, rr⟩ := p
          rw [hd] at hs
          simp only [Except.ok.injEq] at hs
          exact ⟨v, hs.symm⟩
    · rw [if_neg h1] at hs
      by_cases h2 : se.Name.Local = "message"
      · rw [if_pos h2] at hs
        right; left
        refine ⟨h2, ?_⟩
        cases hd : decodeMessage se rest with
        | error e => rw [hd] at hs; exact absurd hs (by simp)
        | ok p =>
            obtain ⟨v, rr⟩ := p
            rw [hd] at hs
            simp only [Except.ok.injEq] at hs
            exact ⟨v, hs.symm⟩
      · rw [if_neg h2] at hs
        by_cases h3 : se.Name.Local = "presence"
        · rw [if_pos h3] at hs
          right; right
          refine ⟨h3, ?_⟩
          cases hd : decodePresence se rest with
          | error e => rw [hd] at hs; exact absurd hs (by simp)
          | ok p =>
              obtain ⟨v, rr⟩ := p
              rw [hd] at hs
              simp only [Except.ok.injEq] at hs
              exact ⟨v, hs.symm⟩
        · rw [if_neg h3] at hs
          exact absurd hs (by simp)

/-- Witness for C1: the dispatch theorem applied at the concrete
unrecognized root element foo. -/
theorem parseStanza_dispatch_witness :
    parseStanzaToks [.startElement ⟨⟨"", "foo"⟩, []⟩] =
      .error "Not iq, message, or presence" :=
  (parseStanza_dispatch ⟨⟨"", "foo"⟩, []⟩ []).1 (by decide) (by decide) (by decide)

/-- C9: decoding the empty self-closing presence document succeeds, yields
the Presence variant with every optional field empty or absent, and GetId
on the result returns the empty string. -/
theorem parseStanza_presence_empty :
    ParseStanza "<presence/>" =
      .ok (.presence ⟨"", "", "", "", "", "", none, none, none, none, []⟩) ∧
    Stanza.GetId (.presence ⟨"", "", "", "", "", "", none, none, none, none, []⟩) = "" :=
  ⟨rfl, rfl⟩

end Xmpp
